import Mathlib

/-!
Verification development for the eclipse-simulator repository.

The repository contains three JavaScript variants of an eclipse simulator.
The detailed variant provides the geometric/optical core:
`circleOverlapArea`, `limbFactor`, `limbDarkenedFluxFraction`,
`umbraPenumbraAtMoonDistance`, `renderSolar`, `renderLunar`, `simulateStep`
and the play/step/tick control loop.  The simple variant (`script.js` /
`drawScene`) contains an inline circular-segment overlap computation.

This file shallowly embeds those functions over the exact reals and proves
properties of the embedding.  JavaScript `Math.hypot`, `Math.atan2`,
`Math.acos`, `Math.sqrt`, `Math.tan` are modelled by the corresponding real
functions.
-/

namespace Eclipse

noncomputable section

open Real

/-- Model of `Math.hypot x y`. -/
def hypot (x y : ℝ) : ℝ := Real.sqrt (x ^ 2 + y ^ 2)

/-- Model of `Math.atan2 y x` (full four-quadrant definition; the simulator
only ever calls it with a positive second argument). -/
def atan2 (y x : ℝ) : ℝ :=
  if 0 < x then Real.arctan (y / x)
  else if x < 0 then
    (if 0 ≤ y then Real.arctan (y / x) + Real.pi else Real.arctan (y / x) - Real.pi)
  else
    (if 0 < y then Real.pi / 2 else if y < 0 then -(Real.pi / 2) else 0)

/-- Source: `angularRadius(R_km, d_km) = Math.atan2(R_km, d_km)`. -/
def angularRadius (R_km d_km : ℝ) : ℝ := atan2 R_km d_km

/-- Source: `PHY.R_sun_km`. -/
def PHY_R_sun_km : ℝ := 695700.0

/-- Source: `PHY.R_earth_km`. -/
def PHY_R_earth_km : ℝ := 6371.0

/-- Source: `PHY.R_moon_km`. -/
def PHY_R_moon_km : ℝ := 1737.4

/-- Source: `PHY.d_earth_sun_km`. -/
def PHY_d_earth_sun_km : ℝ := 149600000.0

/-- Source: `PHY.d_earth_moon_km`. -/
def PHY_d_earth_moon_km : ℝ := 384400.0

/-- The radicand appearing in `circleOverlapArea`:
`(-d + r1 + r2) * (d + r1 - r2) * (d - r1 + r2) * (d + r1 + r2)`. -/
def lensP (r1 r2 d : ℝ) : ℝ :=
  (-d + r1 + r2) * (d + r1 - r2) * (d - r1 + r2) * (d + r1 + r2)

/-- The general (lens) branch of `circleOverlapArea`:
`r1sq * alpha + r2sq * beta - 0.5 * Math.sqrt(...)` with
`alpha = acos((d*d + r1sq - r2sq) / (2*d*r1))` and
`beta = acos((d*d + r2sq - r1sq) / (2*d*r2))`. -/
def lensArea (r1 r2 d : ℝ) : ℝ :=
  r1 ^ 2 * Real.arccos ((d ^ 2 + r1 ^ 2 - r2 ^ 2) / (2 * d * r1)) +
    r2 ^ 2 * Real.arccos ((d ^ 2 + r2 ^ 2 - r1 ^ 2) / (2 * d * r2)) -
    0.5 * Real.sqrt (lensP r1 r2 d)

/-- Source: `circleOverlapArea(r1, r2, d)` of the detailed variant. -/
def circleOverlapArea (r1 r2 d : ℝ) : ℝ :=
  if d ≥ r1 + r2 then 0
  else if d ≤ |r1 - r2| then Real.pi * min r1 r2 ^ 2
  else lensArea r1 r2 d

/-- Modelled from the spec: the three-branch reference definition of the
circle-overlap area in section 4.2 (disjoint / containment / lens formula). -/
def circleOverlapAreaSpec (r1 r2 d : ℝ) : ℝ :=
  if d ≥ r1 + r2 then 0
  else if d ≤ |r1 - r2| then Real.pi * min r1 r2 ^ 2
  else
    r1 ^ 2 * Real.arccos ((d ^ 2 + r1 ^ 2 - r2 ^ 2) / (2 * d * r1)) +
      r2 ^ 2 * Real.arccos ((d ^ 2 + r2 ^ 2 - r1 ^ 2) / (2 * d * r2)) -
      0.5 * Real.sqrt ((-d + r1 + r2) * (d + r1 - r2) * (d - r1 + r2) * (d + r1 + r2))

/-- Source: the inline overlap computation of `drawScene` in the simple
variant: two circular segments obtained from the doubled half-angles
`phi = 2*acos((d*d + r1*r1 - r2*r2)/(2*d*r1))` and
`theta = 2*acos((d*d + r2*r2 - r1*r1)/(2*d*r2))`, guarded by `d < r1 + r2`. -/
def drawSceneOverlap (r1 r2 d : ℝ) : ℝ :=
  if d < r1 + r2 then
    let phi := 2 * Real.arccos ((d ^ 2 + r1 ^ 2 - r2 ^ 2) / (2 * d * r1))
    let theta := 2 * Real.arccos ((d ^ 2 + r2 ^ 2 - r1 ^ 2) / (2 * d * r2))
    let area1 := 0.5 * theta * r2 ^ 2 - 0.5 * r2 ^ 2 * Real.sin theta
    let area2 := 0.5 * phi * r1 ^ 2 - 0.5 * r1 ^ 2 * Real.sin phi
    area1 + area2
  else 0

/-- Source: `limbFactor(r_frac, u = 0.6)`.  The default coefficient 0.6 is
passed explicitly by every use in this file. -/
def limbFactor (r_frac u : ℝ) : ℝ :=
  if r_frac ≥ 1 then 0
  else 1 - u * (1 - Real.sqrt (max 0 (1 - r_frac * r_frac)))

/-- Source: `umbraPenumbraAtMoonDistance(moonDist_km)`; returns the pair
`(r_umbra, r_penumbra)`. -/
def umbraPenumbraAtMoonDistance (moonDist_km : ℝ) : ℝ × ℝ :=
  let L_umbra := PHY_R_earth_km * PHY_d_earth_sun_km / max 1e-9 (PHY_R_sun_km - PHY_R_earth_km)
  let r_umbra := max 0 (PHY_R_earth_km * (1 - moonDist_km / L_umbra))
  let sun_ang := atan2 PHY_R_sun_km PHY_d_earth_sun_km
  let pen_extra := Real.tan sun_ang * moonDist_km
  (r_umbra, r_umbra + pen_extra * 1.05)

/-- The umbra tip distance `earthRadius * sunEarthDistance / (sunRadius - earthRadius)`
(the un-clamped denominator; with the repository's constants the clamp
`max(1e-9, R_s - R_e)` is inactive). -/
def umbraTipDistance : ℝ :=
  PHY_R_earth_km * PHY_d_earth_sun_km / (PHY_R_sun_km - PHY_R_earth_km)

/-- Grid sample coordinate `-R + (i + 0.5) * step` used by
`limbDarkenedFluxFraction`. -/
def samplePoint (R step : ℝ) (i : ℕ) : ℝ := -R + ((i : ℝ) + 0.5) * step

/-- Source: `limbDarkenedFluxFraction(mx, my, sun_r_canvas, moon_r_canvas, samples)`.
The fused accumulation loop is rendered as two grid sums (`total` and
`visible`); a cell contributes to `visible` when it contributes to `total`
and additionally lies outside the occluder. -/
def limbDarkenedFluxFraction (mx my R moonR : ℝ) (samples : ℕ) : ℝ :=
  let step := 2 * R / (samples : ℝ)
  let total := ∑ i ∈ Finset.range samples, ∑ j ∈ Finset.range samples,
    (if hypot (samplePoint R step i) (samplePoint R step j) ≤ R then
      limbFactor (hypot (samplePoint R step i) (samplePoint R step j) / R) 0.6
    else 0)
  let visible := ∑ i ∈ Finset.range samples, ∑ j ∈ Finset.range samples,
    (if hypot (samplePoint R step i) (samplePoint R step j) ≤ R ∧
        moonR < hypot (samplePoint R step i - mx) (samplePoint R step j - my) then
      limbFactor (hypot (samplePoint R step i) (samplePoint R step j) / R) 0.6
    else 0)
  if 0 < total then visible / total else 1.0

/-- Modelled from the spec: the total limb-darkening weight of the N-by-N
grid — a point contributes weight `limbFactor(r/R)` to `total` iff its
distance `r` to the Sun's center satisfies `r ≤ R`. -/
def gridTotalWeight (N : ℕ) (R : ℝ) : ℝ :=
  ∑ i ∈ Finset.range N, ∑ j ∈ Finset.range N,
    (if hypot (samplePoint R (2 * R / (N : ℝ)) i) (samplePoint R (2 * R / (N : ℝ)) j) ≤ R then
      limbFactor (hypot (samplePoint R (2 * R / (N : ℝ)) i) (samplePoint R (2 * R / (N : ℝ)) j) / R) 0.6
    else 0)

/-- Modelled from the spec: the visible limb-darkening weight — a point
contributes the same weight to `visible` iff additionally its distance to
the occluder center `(mx, my)` exceeds the occluder radius. -/
def gridVisibleWeight (mx my : ℝ) (N : ℕ) (R moonR : ℝ) : ℝ :=
  ∑ i ∈ Finset.range N, ∑ j ∈ Finset.range N,
    (if hypot (samplePoint R (2 * R / (N : ℝ)) i) (samplePoint R (2 * R / (N : ℝ)) j) ≤ R ∧
        moonR < hypot (samplePoint R (2 * R / (N : ℝ)) i - mx) (samplePoint R (2 * R / (N : ℝ)) j - my) then
      limbFactor (hypot (samplePoint R (2 * R / (N : ℝ)) i) (samplePoint R (2 * R / (N : ℝ)) j) / R) 0.6
    else 0)

/-- The two simulation modes. -/
inductive Mode where
  | solar : Mode
  | lunar : Mode
deriving DecidableEq

/-- The fields of the `STATE` object that the optical model reads. -/
structure SimState where
  mode : Mode
  time : ℝ
  totalTime : ℝ
  dt : ℝ
  speed : ℝ
  impact : ℝ
  moonDistanceScale : ℝ
  samples : ℕ
  limbDarkening : Bool
  running : Bool

/-- The `DATA` result arrays (parallel light-curve sequences). -/
structure SimData where
  times : List ℝ
  flux : List ℝ
  umbra_frac : List ℝ
  pen_frac : List ℝ
deriving DecidableEq

/-- The triple computed at the end of `renderLunar`. -/
structure LunarResult where
  brightness : ℝ
  umbra_frac : ℝ
  pen_frac : ℝ

/-- Source: `angularRadius(PHY.R_sun_km, PHY.d_earth_sun_km)` in `renderSolar`. -/
def sunAng : ℝ := angularRadius PHY_R_sun_km PHY_d_earth_sun_km

/-- Source: `angularRadius(PHY.R_moon_km * scaleFactor, PHY.d_earth_moon_km * scaleFactor)`
in `renderSolar` (with `scaleFactor = STATE.moonDistanceScale`). -/
def moonAngSolar (s : ℝ) : ℝ := angularRadius (PHY_R_moon_km * s) (PHY_d_earth_moon_km * s)

/-- Source: `travel = 2.4 * (r_sun + r_moon)` in `renderSolar`. -/
def solarTravel (scale s : ℝ) : ℝ := 2.4 * (sunAng * scale + moonAngSolar s * scale)

/-- Source: `x = -travel/2 + travel * progress` in `renderSolar`. -/
def solarX (scale s progress : ℝ) : ℝ :=
  -(solarTravel scale s) / 2 + solarTravel scale s * progress

/-- Source: `y = STATE.impact * (r_sun + r_moon)` in `renderSolar`. -/
def solarY (scale s impact : ℝ) : ℝ := impact * (sunAng * scale + moonAngSolar s * scale)

/-- Source: the flux computation of `renderSolar(progress)` — flat-disk flux
`1 - A_overlap / (π r_sun²)` without limb darkening, otherwise
`limbDarkenedFluxFraction(x, y, r_sun, r_moon, STATE.samples)`.  The canvas
scale (from `computeScale`) is an external parameter. -/
def renderSolarFlux (scale : ℝ) (st : SimState) (progress : ℝ) : ℝ :=
  let r_sun := sunAng * scale
  let r_moon := moonAngSolar st.moonDistanceScale * scale
  let x := solarX scale st.moonDistanceScale progress
  let y := solarY scale st.moonDistanceScale st.impact
  let d := hypot x y
  if st.limbDarkening then limbDarkenedFluxFraction x y r_sun r_moon st.samples
  else 1 - circleOverlapArea r_sun r_moon d / (Real.pi * r_sun ^ 2)

/-- Source: the overlap/brightness computation at the end of `renderLunar`:
`Au`, `Ap`, `penOnly = max(0, Ap - Au)`, the umbra/penumbra fractions, and
`brightness = 1 - umbra_frac - pen_frac * (1 - pen_brightness)` with
`pen_brightness = 0.4`. -/
def lunarBrightnessModel (rM rU rP dc : ℝ) : LunarResult :=
  let Au := circleOverlapArea rM rU dc
  let Ap := circleOverlapArea rM rP dc
  let penOnly := max 0 (Ap - Au)
  let umbra_frac := Au / (Real.pi * rM ^ 2)
  let pen_frac := penOnly / (Real.pi * rM ^ 2)
  { brightness := 1 - umbra_frac - pen_frac * (1 - 0.4)
    umbra_frac := umbra_frac
    pen_frac := pen_frac }

/-- Source: `renderLunar(progress)` — geometry of the Moon's path through the
umbra/penumbra circles and the resulting brightness triple. -/
def renderLunarResult (scale : ℝ) (st : SimState) (progress : ℝ) : LunarResult :=
  let moonDist_km := PHY_d_earth_moon_km * st.moonDistanceScale
  let up := umbraPenumbraAtMoonDistance moonDist_km
  let moon_ang := angularRadius (PHY_R_moon_km * st.moonDistanceScale) moonDist_km
  let r_moon_canvas := moon_ang * scale
  let km_to_canvas := r_moon_canvas / PHY_R_moon_km
  let cu_umbra := up.1 * km_to_canvas
  let cu_penumbra := up.2 * km_to_canvas
  let travel := 2.4 * (cu_penumbra + r_moon_canvas)
  let x := -travel / 2 + travel * progress
  let y := st.impact * (cu_penumbra + r_moon_canvas)
  lunarBrightnessModel r_moon_canvas cu_umbra cu_penumbra (hypot x y)

/-- Source: `progress = Math.min(1.0, Math.max(0, STATE.time / STATE.totalTime))`
in `simulateStep`. -/
def stepProgress (st : SimState) : ℝ := min 1.0 (max 0 (st.time / st.totalTime))

/-- Source: `simulateStep()` — renders the current mode and pushes one sample
onto each `DATA` array (umbra/penumbra fractions are 0 in solar mode). -/
def simulateStep (scale : ℝ) (st : SimState) (data : SimData) : SimData :=
  match st.mode with
  | Mode.solar =>
    { times := data.times ++ [st.time]
      flux := data.flux ++ [renderSolarFlux scale st (stepProgress st)]
      umbra_frac := data.umbra_frac ++ [0]
      pen_frac := data.pen_frac ++ [0] }
  | Mode.lunar =>
    { times := data.times ++ [st.time]
      flux := data.flux ++ [(renderLunarResult scale st (stepProgress st)).brightness]
      umbra_frac := data.umbra_frac ++ [(renderLunarResult scale st (stepProgress st)).umbra_frac]
      pen_frac := data.pen_frac ++ [(renderLunarResult scale st (stepProgress st)).pen_frac] }

/-- Control events of the detailed variant: the play button, the step
button, and one animation-frame iteration of `loop`. -/
inductive SimEvent where
  | play : SimEvent
  | stepBtn : SimEvent
  | tick : SimEvent

/-- Source: the `play` click handler (restarts time when finished, sets
`running`), the `step` click handler (advances time and calls
`simulateStep`), and one `loop` iteration (advances time, calls
`simulateStep`, clears `running` when `time ≥ totalTime`).  Slider re-reads
are modelled as leaving the control fields unchanged. -/
def applyEvent (scale : ℝ) (s : SimState × SimData) : SimEvent → SimState × SimData
  | SimEvent.play =>
    let st := if s.1.time ≥ s.1.totalTime then { s.1 with time := 0 } else s.1
    ({ st with running := true }, s.2)
  | SimEvent.stepBtn =>
    let st := { s.1 with time := s.1.time + s.1.dt * s.1.speed }
    (st, simulateStep scale st s.2)
  | SimEvent.tick =>
    if s.1.running then
      let st := { s.1 with time := s.1.time + s.1.dt * s.1.speed }
      let d := simulateStep scale st s.2
      if st.time ≥ st.totalTime then ({ st with running := false }, d) else (st, d)
    else s

/-- Folding a list of control events over a state. -/
def runEvents (scale : ℝ) (s : SimState × SimData) (es : List SimEvent) : SimState × SimData :=
  es.foldl (applyEvent scale) s

/-- A trace is safe when the play button is never pressed while the
simulation is already finished (`time ≥ totalTime`); pressing play then
resets `time` to 0 without clearing the data arrays. -/
def SafeTrace (scale : ℝ) : SimState × SimData → List SimEvent → Prop
  | _, [] => True
  | s, e :: es =>
      (e = SimEvent.play → s.1.time < s.1.totalTime) ∧
        SafeTrace scale (applyEvent scale s e) es

/-- The appended sample of one `simulateStep` call, with all three recorded
fractions lying in the unit interval. -/
def SampleInRange (scale : ℝ) (st : SimState) (data : SimData) : Prop :=
  ∃ f uf pf : ℝ,
    simulateStep scale st data =
      { times := data.times ++ [st.time]
        flux := data.flux ++ [f]
        umbra_frac := data.umbra_frac ++ [uf]
        pen_frac := data.pen_frac ++ [pf] } ∧
    f ∈ Set.Icc (0 : ℝ) 1 ∧ uf ∈ Set.Icc (0 : ℝ) 1 ∧ pf ∈ Set.Icc (0 : ℝ) 1

/-- A concrete solar-mode configuration used to instantiate theorems. -/
def testStateSolar : SimState :=
  { mode := Mode.solar, time := 0, totalTime := 180, dt := 0.5, speed := 1, impact := 0,
    moonDistanceScale := 1, samples := 1, limbDarkening := false, running := false }

/-- A degenerate configuration: lunar mode with `moonDistanceScale = 0`, so the
Moon distance `PHY_d_earth_moon_km * 0` is not positive. -/
def degenerateLunarState : SimState :=
  { mode := Mode.lunar, time := 0, totalTime := 180, dt := 0.5, speed := 1, impact := 0,
    moonDistanceScale := 0, samples := 120, limbDarkening := false, running := false }

/-- A concrete state that reaches `totalTime` in one tick (speed 360 with
dt = 0.5 gives a step of 180 minutes). -/
def fastState : SimState :=
  { mode := Mode.solar, time := 0, totalTime := 180, dt := 0.5, speed := 360, impact := 0,
    moonDistanceScale := 1, samples := 1, limbDarkening := false, running := false }

/-- The empty `DATA` arrays (state after `resetSimulation`). -/
def emptyData : SimData := { times := [], flux := [], umbra_frac := [], pen_frac := [] }

/-- The behaviour claimed for `limbDarkenedFluxFraction`: the result is
`visible/total` over the N-by-N cell-center grid, and exactly 1.0 when the
total weight is zero. -/
def GridFluxProp (mx my R moonR : ℝ) (N : ℕ) : Prop :=
  (gridTotalWeight N R = 0 → limbDarkenedFluxFraction mx my R moonR N = 1) ∧
  (gridTotalWeight N R ≠ 0 →
    limbDarkenedFluxFraction mx my R moonR N =
      gridVisibleWeight mx my N R moonR / gridTotalWeight N R)

/-- The behaviour claimed for the lunar-mode evaluation step: umbra and
penumbra-only fractions normalized by the Moon's disk area, and the brightness
formula with penumbra brightness constant 0.4; one sample of each quantity is
appended per `simulateStep` call. -/
def LunarFormulaProp (rM rU rP dc : ℝ) : Prop :=
  (lunarBrightnessModel rM rU rP dc).umbra_frac =
      circleOverlapArea rM rU dc / (Real.pi * rM ^ 2) ∧
  (lunarBrightnessModel rM rU rP dc).pen_frac =
      max 0 (circleOverlapArea rM rP dc - circleOverlapArea rM rU dc) / (Real.pi * rM ^ 2) ∧
  (lunarBrightnessModel rM rU rP dc).brightness =
      1 - (lunarBrightnessModel rM rU rP dc).umbra_frac -
        (lunarBrightnessModel rM rU rP dc).pen_frac * (1 - 0.4) ∧
  ∀ (scale : ℝ) (st : SimState) (data : SimData), st.mode = Mode.lunar →
    (simulateStep scale st data).flux =
        data.flux ++ [(renderLunarResult scale st (stepProgress st)).brightness] ∧
    (simulateStep scale st data).umbra_frac =
        data.umbra_frac ++ [(renderLunarResult scale st (stepProgress st)).umbra_frac] ∧
    (simulateStep scale st data).pen_frac =
        data.pen_frac ++ [(renderLunarResult scale st (stepProgress st)).pen_frac]

/-- The behaviour claimed for the solar-mode evaluation step with limb
darkening disabled: flat-disk flux `1 - overlap/(π·r_sun²)`, its consequences
at large separation and at full containment, and the zero umbra/penumbra
fractions recorded by `simulateStep`. -/
def SolarFlatProp (scale : ℝ) (st : SimState) (data : SimData) (progress : ℝ) : Prop :=
  renderSolarFlux scale st progress =
      1 - circleOverlapArea (sunAng * scale) (moonAngSolar st.moonDistanceScale * scale)
          (hypot (solarX scale st.moonDistanceScale progress)
            (solarY scale st.moonDistanceScale st.impact)) /
        (Real.pi * (sunAng * scale) ^ 2) ∧
  (simulateStep scale st data).flux =
      data.flux ++ [renderSolarFlux scale st (stepProgress st)] ∧
  (simulateStep scale st data).umbra_frac = data.umbra_frac ++ [0] ∧
  (simulateStep scale st data).pen_frac = data.pen_frac ++ [0] ∧
  (∀ r1 r2 dd : ℝ, 0 < r1 → 0 < r2 → r1 + r2 ≤ dd →
    1 - circleOverlapArea r1 r2 dd / (Real.pi * r1 ^ 2) = 1) ∧
  (∀ r1 r2 : ℝ, 0 < r1 → 0 < r2 → r1 ≤ r2 →
    1 - circleOverlapArea r1 r2 0 / (Real.pi * r1 ^ 2) = 0)

/-! Basic helper lemmas. -/

theorem hypot_nonneg (x y : ℝ) : 0 ≤ hypot x y := Real.sqrt_nonneg _

theorem atan2_of_pos (y x : ℝ) (hx : 0 < x) : atan2 y x = Real.arctan (y / x) := by
  rw [atan2, if_pos hx]

theorem atan2_pos (y x : ℝ) (hy : 0 < y) (hx : 0 < x) : 0 < atan2 y x := by
  rw [atan2_of_pos y x hx]
  have h : (0 : ℝ) < y / x := div_pos hy hx
  have := Real.arctan_strictMono h
  rwa [Real.arctan_zero] at this

theorem limbFactor_nonneg (r : ℝ) : 0 ≤ limbFactor r 0.6 := by
  rw [limbFactor]
  split_ifs with h
  · exact le_refl 0
  · have hs : 0 ≤ Real.sqrt (max 0 (1 - r * r)) := Real.sqrt_nonneg _
    linarith

/-- C6 (counterexample): the claim asserts `limbFactor(1) = 0.4`, but the code
returns 0 for every `r_frac ≥ 1`, including exactly at the edge `r_frac = 1`. -/
theorem C6_limbFactor_edge_counterexample :
    limbFactor 1 0.6 = 0 ∧ limbFactor 1 0.6 ≠ 0.4 := by
  have h : limbFactor 1 0.6 = 0 := by rw [limbFactor, if_pos le_rfl]
  exact ⟨h, by rw [h]; norm_num⟩

/-- C6 (amended): with u = 0.6, `limbFactor(0) = 1`; for `0 ≤ r < 1` the value
is `1 - u*(1 - sqrt(1 - r²))` (which tends to 0.4 as r tends to 1 from below);
brightness is 0 at/beyond the edge, including `limbFactor(1) = 0`; and
`limbFactor` is monotonically non-increasing on the nonnegative reals. -/
theorem C6_limbFactor_amended :
    limbFactor 0 0.6 = 1 ∧
    (∀ r : ℝ, 0 ≤ r → r < 1 →
      limbFactor r 0.6 = 1 - 0.6 * (1 - Real.sqrt (1 - r ^ 2))) ∧
    (∀ r : ℝ, 1 ≤ r → limbFactor r 0.6 = 0) ∧
    (∀ a b : ℝ, 0 ≤ a → a < b → limbFactor b 0.6 ≤ limbFactor a 0.6) := by
  refine ⟨?_, ?_, ?_, ?_⟩
  · rw [limbFactor, if_neg (by norm_num)]
    norm_num
  · intro r h0 h1
    rw [limbFactor, if_neg (not_le.mpr h1)]
    have hmax : max 0 (1 - r * r) = 1 - r ^ 2 := by
      rw [max_eq_right (by nlinarith)]; ring
    rw [hmax]
  · intro r hr
    rw [limbFactor, if_pos hr]
  · intro a b ha hab
    rcases le_or_lt 1 b with hb | hb
    · rw [limbFactor, if_pos hb]
      exact limbFactor_nonneg a
    · have ha1 : a < 1 := lt_trans hab hb
      rw [limbFactor, if_neg (not_le.mpr hb), limbFactor, if_neg (not_le.mpr ha1)]
      have h1 : max 0 (1 - b * b) ≤ max 0 (1 - a * a) :=
        max_le_max le_rfl (by nlinarith)
      have h2 := Real.sqrt_le_sqrt h1
      linarith

/-- C6 (witness): the amended statement applied at a = 0, b = 1/2. -/
theorem C6_limbFactor_amended_witness :
    (0 : ℝ) ≤ 0 ∧ (0 : ℝ) < 1 / 2 ∧
      limbFactor (1 / 2) 0.6 ≤ limbFactor 0 0.6 :=
  ⟨le_refl 0, by norm_num, C6_limbFactor_amended.2.2.2 0 (1 / 2) (le_refl 0) (by norm_num)⟩

/-- C5: with the repository's physical constants (for which the precondition
sunRadius > earthRadius holds and the `max(1e-9, ·)` clamp is inactive),
`umbraPenumbraAtMoonDistance` returns the clamped linear interpolation to the
umbra tip distance, the umbra radius vanishes exactly for moonDistance ≥ tip
distance, and the penumbra radius adds `tan(atan2(R_sun, d_sun))·d·1.05`. -/
theorem C5_umbraPenumbra (d : ℝ) (hsun : PHY_R_earth_km < PHY_R_sun_km) (hd : 0 ≤ d) :
    (umbraPenumbraAtMoonDistance d).1 =
        max 0 (PHY_R_earth_km * (1 - d / umbraTipDistance)) ∧
    ((umbraPenumbraAtMoonDistance d).1 = 0 ↔ umbraTipDistance ≤ d) ∧
    (umbraPenumbraAtMoonDistance d).2 =
      (umbraPenumbraAtMoonDistance d).1 +
        Real.tan (atan2 PHY_R_sun_km PHY_d_earth_sun_km) * d * 1.05 := by
  have hmax : max (1e-9) (PHY_R_sun_km - PHY_R_earth_km) = PHY_R_sun_km - PHY_R_earth_km := by
    rw [max_eq_right]
    norm_num [PHY_R_sun_km, PHY_R_earth_km]
  have hL : 0 < umbraTipDistance := by
    norm_num [umbraTipDistance, PHY_R_earth_km, PHY_d_earth_sun_km, PHY_R_sun_km]
  have hRe : (0 : ℝ) < PHY_R_earth_km := by norm_num [PHY_R_earth_km]
  have h1 : (umbraPenumbraAtMoonDistance d).1 =
      max 0 (PHY_R_earth_km * (1 - d / umbraTipDistance)) := by
    simp only [umbraPenumbraAtMoonDistance, umbraTipDistance, hmax]
  refine ⟨h1, ?_, ?_⟩
  · rw [h1, max_eq_left_iff]
    constructor
    · intro h
      have hq : 1 - d / umbraTipDistance ≤ 0 := by
        by_contra hq
        push_neg at hq
        nlinarith
      exact (one_le_div hL).mp (by linarith)
    · intro h
      have hq : 1 ≤ d / umbraTipDistance := (one_le_div hL).mpr h
      nlinarith
  · simp only [umbraPenumbraAtMoonDistance, umbraTipDistance, hmax]

/-- C5 (witness): the theorem applied at moonDistance = 0. -/
theorem C5_umbraPenumbra_witness :
    PHY_R_earth_km < PHY_R_sun_km ∧ (0 : ℝ) ≤ 0 ∧
      ((umbraPenumbraAtMoonDistance 0).1 =
          max 0 (PHY_R_earth_km * (1 - 0 / umbraTipDistance)) ∧
        ((umbraPenumbraAtMoonDistance 0).1 = 0 ↔ umbraTipDistance ≤ 0) ∧
        (umbraPenumbraAtMoonDistance 0).2 =
          (umbraPenumbraAtMoonDistance 0).1 +
            Real.tan (atan2 PHY_R_sun_km PHY_d_earth_sun_km) * 0 * 1.05) :=
  ⟨by norm_num [PHY_R_earth_km, PHY_R_sun_km], le_refl 0,
    C5_umbraPenumbra 0 (by norm_num [PHY_R_earth_km, PHY_R_sun_km]) (le_refl 0)⟩

/-! Lens-area boundary values. -/

theorem lensP_comm (r1 r2 d : ℝ) : lensP r1 r2 d = lensP r2 r1 d := by
  rw [lensP, lensP]; ring

theorem lensArea_comm (r1 r2 d : ℝ) : lensArea r1 r2 d = lensArea r2 r1 d := by
  rw [lensArea, lensArea, lensP_comm]; ring

theorem lensArea_at_sum (r1 r2 : ℝ) (h1 : 0 < r1) (h2 : 0 < r2) :
    lensArea r1 r2 (r1 + r2) = 0 := by
  have e1 : ((r1 + r2) ^ 2 + r1 ^ 2 - r2 ^ 2) / (2 * (r1 + r2) * r1) = 1 := by
    have hne : 2 * (r1 + r2) * r1 ≠ 0 := by positivity
    field_simp
    ring
  have e2 : ((r1 + r2) ^ 2 + r2 ^ 2 - r1 ^ 2) / (2 * (r1 + r2) * r2) = 1 := by
    have hne : 2 * (r1 + r2) * r2 ≠ 0 := by positivity
    field_simp
    ring
  have e3 : lensP r1 r2 (r1 + r2) = 0 := by rw [lensP]; ring
  rw [lensArea, e1, e2, e3, Real.arccos_one, Real.sqrt_zero]
  ring

theorem lensArea_at_diff_of_lt (r1 r2 : ℝ) (h2 : 0 < r2) (hlt : r2 < r1) :
    lensArea r1 r2 (r1 - r2) = Real.pi * r2 ^ 2 := by
  have h1 : 0 < r1 := h2.trans hlt
  have hd : (0 : ℝ) < r1 - r2 := sub_pos.mpr hlt
  have e1 : ((r1 - r2) ^ 2 + r1 ^ 2 - r2 ^ 2) / (2 * (r1 - r2) * r1) = 1 := by
    have hne : 2 * (r1 - r2) * r1 ≠ 0 := by positivity
    field_simp
    ring
  have e2 : ((r1 - r2) ^ 2 + r2 ^ 2 - r1 ^ 2) / (2 * (r1 - r2) * r2) = -1 := by
    have hne : 2 * (r1 - r2) * r2 ≠ 0 := by positivity
    field_simp
    ring
  have e3 : lensP r1 r2 (r1 - r2) = 0 := by rw [lensP]; ring
  rw [lensArea, e1, e2, e3, Real.arccos_one, Real.arccos_neg_one, Real.sqrt_zero]
  ring

theorem lensArea_at_diff (r1 r2 : ℝ) (h1 : 0 < r1) (h2 : 0 < r2) :
    lensArea r1 r2 |r1 - r2| = Real.pi * min r1 r2 ^ 2 := by
  rcases lt_trichotomy r1 r2 with h | h | h
  · rw [abs_of_neg (sub_neg.mpr h), neg_sub, lensArea_comm, min_eq_left h.le]
    exact lensArea_at_diff_of_lt r2 r1 h1 h
  · subst h
    rw [sub_self, abs_zero, min_self]
    have e1 : ((0 : ℝ) ^ 2 + r1 ^ 2 - r1 ^ 2) / (2 * 0 * r1) = 0 := by norm_num
    have e3 : lensP r1 r1 0 = 0 := by rw [lensP]; ring
    rw [lensArea, e1, Real.arccos_zero, e3, Real.sqrt_zero]
    ring
  · rw [abs_of_pos (sub_pos.mpr h), min_eq_right h.le]
    exact lensArea_at_diff_of_lt r1 r2 h2 h

/-- C1: `circleOverlapArea` coincides with the three-branch reference
definition of the spec, and over exact reals the lens expression is
continuous across the branch boundaries: it vanishes at `d = r1 + r2` and
equals `π·min(r1,r2)²` at `d = |r1 - r2|`. -/
theorem C1_circleOverlapArea_spec_and_boundary (r1 r2 d : ℝ)
    (h1 : 0 < r1) (h2 : 0 < r2) (hd : 0 ≤ d) :
    circleOverlapArea r1 r2 d = circleOverlapAreaSpec r1 r2 d ∧
    lensArea r1 r2 (r1 + r2) = 0 ∧
    lensArea r1 r2 |r1 - r2| = Real.pi * min r1 r2 ^ 2 :=
  ⟨rfl, lensArea_at_sum r1 r2 h1 h2, lensArea_at_diff r1 r2 h1 h2⟩

/-- C1 (witness): the theorem applied at r1 = 1, r2 = 2, d = 3. -/
theorem C1_witness :
    (0 : ℝ) < 1 ∧ (0 : ℝ) < 2 ∧ (0 : ℝ) ≤ 3 ∧
      (circleOverlapArea 1 2 3 = circleOverlapAreaSpec 1 2 3 ∧
        lensArea 1 2 (1 + 2) = 0 ∧
        lensArea 1 2 |1 - 2| = Real.pi * min 1 2 ^ 2) :=
  ⟨by norm_num, by norm_num, by norm_num,
    C1_circleOverlapArea_spec_and_boundary 1 2 3 (by norm_num) (by norm_num) (by norm_num)⟩

/-! The partial-overlap (lens) range `|r1 - r2| < d < r1 + r2`. -/

theorem lens_d_pos {r1 r2 d : ℝ} (hlo : |r1 - r2| < d) : 0 < d :=
  lt_of_le_of_lt (abs_nonneg _) hlo

theorem lens_arg1_bounds {r1 r2 d : ℝ} (h1 : 0 < r1) (h2 : 0 < r2)
    (hlo : |r1 - r2| < d) (hhi : d < r1 + r2) :
    -1 < (d ^ 2 + r1 ^ 2 - r2 ^ 2) / (2 * d * r1) ∧
      (d ^ 2 + r1 ^ 2 - r2 ^ 2) / (2 * d * r1) < 1 := by
  have hd : 0 < d := lens_d_pos hlo
  have habs := abs_lt.mp hlo
  have hden : (0 : ℝ) < 2 * d * r1 := by positivity
  constructor
  · rw [lt_div_iff hden]
    nlinarith [mul_pos (show (0 : ℝ) < d + r1 - r2 by linarith)
      (show (0 : ℝ) < d + r1 + r2 by linarith)]
  · rw [div_lt_one hden]
    nlinarith [mul_pos (show (0 : ℝ) < r1 + r2 - d by linarith)
      (show (0 : ℝ) < r2 + d - r1 by linarith)]

theorem lens_arg2_bounds {r1 r2 d : ℝ} (h1 : 0 < r1) (h2 : 0 < r2)
    (hlo : |r1 - r2| < d) (hhi : d < r1 + r2) :
    -1 < (d ^ 2 + r2 ^ 2 - r1 ^ 2) / (2 * d * r2) ∧
      (d ^ 2 + r2 ^ 2 - r1 ^ 2) / (2 * d * r2) < 1 := by
  have hlo' : |r2 - r1| < d := by rwa [abs_sub_comm]
  have hhi' : d < r2 + r1 := by linarith
  exact lens_arg1_bounds h2 h1 hlo' hhi'

theorem lensP_pos {r1 r2 d : ℝ} (h1 : 0 < r1) (h2 : 0 < r2)
    (hlo : |r1 - r2| < d) (hhi : d < r1 + r2) : 0 < lensP r1 r2 d := by
  have hd : 0 < d := lens_d_pos hlo
  have habs := abs_lt.mp hlo
  rw [lensP]
  have f1 : (0 : ℝ) < -d + r1 + r2 := by linarith
  have f2 : (0 : ℝ) < d + r1 - r2 := by linarith
  have f3 : (0 : ℝ) < d - r1 + r2 := by linarith
  have f4 : (0 : ℝ) < d + r1 + r2 := by linarith
  exact mul_pos (mul_pos (mul_pos f1 f2) f3) f4

theorem sqrt_one_sub_arg1_sq {r1 r2 d : ℝ} (h1 : 0 < r1) (h2 : 0 < r2)
    (hlo : |r1 - r2| < d) (hhi : d < r1 + r2) :
    Real.sqrt (1 - ((d ^ 2 + r1 ^ 2 - r2 ^ 2) / (2 * d * r1)) ^ 2) =
      Real.sqrt (lensP r1 r2 d) / (2 * d * r1) := by
  have hd : 0 < d := lens_d_pos hlo
  have hden : (0 : ℝ) < 2 * d * r1 := by positivity
  have key : 1 - ((d ^ 2 + r1 ^ 2 - r2 ^ 2) / (2 * d * r1)) ^ 2 =
      lensP r1 r2 d / (2 * d * r1) ^ 2 := by
    rw [lensP]
    field_simp
    ring
  rw [key, Real.sqrt_div (lensP_pos h1 h2 hlo hhi).le, Real.sqrt_sq hden.le]

theorem sqrt_one_sub_arg2_sq {r1 r2 d : ℝ} (h1 : 0 < r1) (h2 : 0 < r2)
    (hlo : |r1 - r2| < d) (hhi : d < r1 + r2) :
    Real.sqrt (1 - ((d ^ 2 + r2 ^ 2 - r1 ^ 2) / (2 * d * r2)) ^ 2) =
      Real.sqrt (lensP r1 r2 d) / (2 * d * r2) := by
  have hlo' : |r2 - r1| < d := by rwa [abs_sub_comm]
  have hhi' : d < r2 + r1 := by linarith
  rw [lensP_comm]
  exact sqrt_one_sub_arg1_sq h2 h1 hlo' hhi'

theorem lensArea_eq_segments {r1 r2 d : ℝ} (h1 : 0 < r1) (h2 : 0 < r2)
    (hlo : |r1 - r2| < d) (hhi : d < r1 + r2) :
    lensArea r1 r2 d =
      r1 ^ 2 * (Real.arccos ((d ^ 2 + r1 ^ 2 - r2 ^ 2) / (2 * d * r1)) -
          Real.sin (Real.arccos ((d ^ 2 + r1 ^ 2 - r2 ^ 2) / (2 * d * r1))) *
            Real.cos (Real.arccos ((d ^ 2 + r1 ^ 2 - r2 ^ 2) / (2 * d * r1)))) +
        r2 ^ 2 * (Real.arccos ((d ^ 2 + r2 ^ 2 - r1 ^ 2) / (2 * d * r2)) -
          Real.sin (Real.arccos ((d ^ 2 + r2 ^ 2 - r1 ^ 2) / (2 * d * r2))) *
            Real.cos (Real.arccos ((d ^ 2 + r2 ^ 2 - r1 ^ 2) / (2 * d * r2)))) := by
  have hd : 0 < d := lens_d_pos hlo
  have hb1 := lens_arg1_bounds h1 h2 hlo hhi
  have hb2 := lens_arg2_bounds h1 h2 hlo hhi
  rw [lensArea, Real.sin_arccos, Real.sin_arccos,
    Real.cos_arccos hb1.1.le hb1.2.le, Real.cos_arccos hb2.1.le hb2.2.le,
    sqrt_one_sub_arg1_sq h1 h2 hlo hhi, sqrt_one_sub_arg2_sq h1 h2 hlo hhi]
  have hne1 : (2 * d * r1) ≠ 0 := by positivity
  have hne2 : (2 * d * r2) ≠ 0 := by positivity
  field_simp
  ring

/-- C10: in the strict lens range, the simple variant's inline
circular-segment computation (`drawScene`) coincides with the detailed
variant's `circleOverlapArea`, over exact reals. -/
theorem C10_drawSceneOverlap_eq (r1 r2 d : ℝ) (h1 : 0 < r1) (h2 : 0 < r2)
    (hlo : |r1 - r2| < d) (hhi : d < r1 + r2) :
    drawSceneOverlap r1 r2 d = circleOverlapArea r1 r2 d := by
  have hd : 0 < d := lens_d_pos hlo
  rw [circleOverlapArea, if_neg (not_le.mpr hhi), if_neg (not_le.mpr hlo)]
  rw [lensArea_eq_segments h1 h2 hlo hhi]
  simp only [drawSceneOverlap]
  rw [if_pos hhi, Real.sin_two_mul, Real.sin_two_mul]
  ring

/-- C10 (witness): the theorem applied at r1 = 2, r2 = 1, d = 2. -/
theorem C10_witness :
    (0 : ℝ) < 2 ∧ (0 : ℝ) < 1 ∧ |(2 : ℝ) - 1| < 2 ∧ (2 : ℝ) < 2 + 1 ∧
      drawSceneOverlap 2 1 2 = circleOverlapArea 2 1 2 :=
  ⟨by norm_num, by norm_num, by norm_num [abs_of_pos], by norm_num,
    C10_drawSceneOverlap_eq 2 1 2 (by norm_num) (by norm_num)
      (by norm_num [abs_of_pos]) (by norm_num)⟩

/-! Bounds on the overlap area. -/

theorem sin_le_self (x : ℝ) (hx : 0 ≤ x) : Real.sin x ≤ x := by
  rcases eq_or_lt_of_le hx with h | h
  · rw [← h]
    simp
  · exact (Real.sin_lt h).le

theorem segment_nonneg (y : ℝ) (hy1 : -1 ≤ y) (hy2 : y ≤ 1) :
    0 ≤ Real.arccos y - Real.sin (Real.arccos y) * Real.cos (Real.arccos y) := by
  have hθ0 : 0 ≤ Real.arccos y := Real.arccos_nonneg y
  have hsin : Real.sin (2 * Real.arccos y) ≤ 2 * Real.arccos y :=
    sin_le_self _ (by linarith)
  have hdouble := Real.sin_two_mul (Real.arccos y)
  nlinarith

theorem lensArea_nonneg_of_range {r1 r2 d : ℝ} (h1 : 0 < r1) (h2 : 0 < r2)
    (hlo : |r1 - r2| < d) (hhi : d < r1 + r2) : 0 ≤ lensArea r1 r2 d := by
  have hb1 := lens_arg1_bounds h1 h2 hlo hhi
  have hb2 := lens_arg2_bounds h1 h2 hlo hhi
  rw [lensArea_eq_segments h1 h2 hlo hhi]
  have s1 := segment_nonneg _ hb1.1.le hb1.2.le
  have s2 := segment_nonneg _ hb2.1.le hb2.2.le
  have m1 := mul_nonneg (sq_nonneg r1) s1
  have m2 := mul_nonneg (sq_nonneg r2) s2
  linarith

theorem lens_branch_radii_pos {r1 r2 d : ℝ} (hr1 : 0 ≤ r1) (hr2 : 0 ≤ r2)
    (hlo : |r1 - r2| < d) (hhi : d < r1 + r2) : 0 < r1 ∧ 0 < r2 := by
  constructor
  · rcases eq_or_lt_of_le hr1 with h | h
    · exfalso
      rw [← h, zero_sub, abs_neg, abs_of_nonneg hr2] at hlo
      rw [← h] at hhi
      linarith
    · exact h
  · rcases eq_or_lt_of_le hr2 with h | h
    · exfalso
      rw [← h, sub_zero, abs_of_nonneg hr1] at hlo
      rw [← h] at hhi
      linarith
    · exact h

theorem circleOverlapArea_nonneg (r1 r2 d : ℝ) (hr1 : 0 ≤ r1) (hr2 : 0 ≤ r2) :
    0 ≤ circleOverlapArea r1 r2 d := by
  rw [circleOverlapArea]
  split_ifs with ha hb
  · exact le_refl 0
  · positivity
  · push_neg at ha hb
    obtain ⟨p1, p2⟩ := lens_branch_radii_pos hr1 hr2 hb ha
    exact lensArea_nonneg_of_range p1 p2 hb ha

theorem lensArea_hasDerivAt {r1 r2 : ℝ} (h1 : 0 < r1) (h2 : 0 < r2) {d : ℝ}
    (hlo : |r1 - r2| < d) (hhi : d < r1 + r2) :
    HasDerivAt (lensArea r1 r2) (-(Real.sqrt (lensP r1 r2 d) / d)) d := by
  have hd : 0 < d := lens_d_pos hlo
  have hb1 := lens_arg1_bounds h1 h2 hlo hhi
  have hb2 := lens_arg2_bounds h1 h2 hlo hhi
  have hP := lensP_pos h1 h2 hlo hhi
  have hden1 : (2 : ℝ) * d * r1 ≠ 0 := by positivity
  have hden2 : (2 : ℝ) * d * r2 ≠ 0 := by positivity
  have hnum1 : HasDerivAt (fun x : ℝ => x ^ 2 + r1 ^ 2 - r2 ^ 2) (2 * d) d := by
    simpa using ((hasDerivAt_pow 2 d).add_const (r1 ^ 2)).sub_const (r2 ^ 2)
  have hnum2 : HasDerivAt (fun x : ℝ => x ^ 2 + r2 ^ 2 - r1 ^ 2) (2 * d) d := by
    simpa using ((hasDerivAt_pow 2 d).add_const (r2 ^ 2)).sub_const (r1 ^ 2)
  have hlin1 : HasDerivAt (fun x : ℝ => 2 * x * r1) (2 * r1) d := by
    simpa using ((hasDerivAt_id d).const_mul 2).mul_const r1
  have hlin2 : HasDerivAt (fun x : ℝ => 2 * x * r2) (2 * r2) d := by
    simpa using ((hasDerivAt_id d).const_mul 2).mul_const r2
  have hu : HasDerivAt (fun x : ℝ => (x ^ 2 + r1 ^ 2 - r2 ^ 2) / (2 * x * r1))
      ((2 * d * (2 * d * r1) - (d ^ 2 + r1 ^ 2 - r2 ^ 2) * (2 * r1)) / (2 * d * r1) ^ 2) d :=
    hnum1.div hlin1 hden1
  have hv : HasDerivAt (fun x : ℝ => (x ^ 2 + r2 ^ 2 - r1 ^ 2) / (2 * x * r2))
      ((2 * d * (2 * d * r2) - (d ^ 2 + r2 ^ 2 - r1 ^ 2) * (2 * r2)) / (2 * d * r2) ^ 2) d :=
    hnum2.div hlin2 hden2
  have harc1 : HasDerivAt
      (fun x : ℝ => Real.arccos ((x ^ 2 + r1 ^ 2 - r2 ^ 2) / (2 * x * r1)))
      (-(1 / Real.sqrt (1 - ((d ^ 2 + r1 ^ 2 - r2 ^ 2) / (2 * d * r1)) ^ 2)) *
        ((2 * d * (2 * d * r1) - (d ^ 2 + r1 ^ 2 - r2 ^ 2) * (2 * r1)) / (2 * d * r1) ^ 2)) d :=
    (Real.hasDerivAt_arccos (ne_of_gt hb1.1) (ne_of_lt hb1.2)).comp d hu
  have harc2 : HasDerivAt
      (fun x : ℝ => Real.arccos ((x ^ 2 + r2 ^ 2 - r1 ^ 2) / (2 * x * r2)))
      (-(1 / Real.sqrt (1 - ((d ^ 2 + r2 ^ 2 - r1 ^ 2) / (2 * d * r2)) ^ 2)) *
        ((2 * d * (2 * d * r2) - (d ^ 2 + r2 ^ 2 - r1 ^ 2) * (2 * r2)) / (2 * d * r2) ^ 2)) d :=
    (Real.hasDerivAt_arccos (ne_of_gt hb2.1) (ne_of_lt hb2.2)).comp d hv
  have c4 : HasDerivAt (fun x : ℝ => x ^ 4) (4 * d ^ 3) d := by
    simpa using hasDerivAt_pow 4 d
  have c2 : HasDerivAt (fun x : ℝ => x ^ 2) (2 * d) d := by
    simpa using hasDerivAt_pow 2 d
  have hpoly : HasDerivAt
      (fun x : ℝ => -x ^ 4 + 2 * (r1 ^ 2 + r2 ^ 2) * x ^ 2 - (r1 ^ 2 - r2 ^ 2) ^ 2)
      (-(4 * d ^ 3) + 2 * (r1 ^ 2 + r2 ^ 2) * (2 * d)) d :=
    (c4.neg.add (c2.const_mul (2 * (r1 ^ 2 + r2 ^ 2)))).sub_const ((r1 ^ 2 - r2 ^ 2) ^ 2)
  have hPd : HasDerivAt (fun x : ℝ => lensP r1 r2 x)
      (-(4 * d ^ 3) + 2 * (r1 ^ 2 + r2 ^ 2) * (2 * d)) d := by
    refine HasDerivAt.congr_of_eventuallyEq hpoly ?_
    filter_upwards with x
    rw [lensP]
    ring
  have hsqrtP : HasDerivAt (fun x : ℝ => Real.sqrt (lensP r1 r2 x))
      (1 / (2 * Real.sqrt (lensP r1 r2 d)) *
        (-(4 * d ^ 3) + 2 * (r1 ^ 2 + r2 ^ 2) * (2 * d))) d :=
    (Real.hasDerivAt_sqrt hP.ne').comp d hPd
  have hA := ((harc1.const_mul (r1 ^ 2)).add (harc2.const_mul (r2 ^ 2))).sub
    (hsqrtP.const_mul 0.5)
  have final : HasDerivAt (lensArea r1 r2)
      (r1 ^ 2 * (-(1 / Real.sqrt (1 - ((d ^ 2 + r1 ^ 2 - r2 ^ 2) / (2 * d * r1)) ^ 2)) *
          ((2 * d * (2 * d * r1) - (d ^ 2 + r1 ^ 2 - r2 ^ 2) * (2 * r1)) / (2 * d * r1) ^ 2)) +
        r2 ^ 2 * (-(1 / Real.sqrt (1 - ((d ^ 2 + r2 ^ 2 - r1 ^ 2) / (2 * d * r2)) ^ 2)) *
          ((2 * d * (2 * d * r2) - (d ^ 2 + r2 ^ 2 - r1 ^ 2) * (2 * r2)) / (2 * d * r2) ^ 2)) -
        0.5 * (1 / (2 * Real.sqrt (lensP r1 r2 d)) *
          (-(4 * d ^ 3) + 2 * (r1 ^ 2 + r2 ^ 2) * (2 * d)))) d := by
    refine HasDerivAt.congr_of_eventuallyEq hA ?_
    filter_upwards with x
    rw [lensArea]
  rw [sqrt_one_sub_arg1_sq h1 h2 hlo hhi, sqrt_one_sub_arg2_sq h1 h2 hlo hhi] at final
  have hs2 : Real.sqrt (lensP r1 r2 d) ^ 2 =
      (-d + r1 + r2) * (d + r1 - r2) * (d - r1 + r2) * (d + r1 + r2) := by
    rw [Real.sq_sqrt hP.le, lensP]
  have hsne : Real.sqrt (lensP r1 r2 d) ≠ 0 := (Real.sqrt_pos.mpr hP).ne'
  have hval : r1 ^ 2 * (-(1 / (Real.sqrt (lensP r1 r2 d) / (2 * d * r1))) *
        ((2 * d * (2 * d * r1) - (d ^ 2 + r1 ^ 2 - r2 ^ 2) * (2 * r1)) / (2 * d * r1) ^ 2)) +
      r2 ^ 2 * (-(1 / (Real.sqrt (lensP r1 r2 d) / (2 * d * r2))) *
        ((2 * d * (2 * d * r2) - (d ^ 2 + r2 ^ 2 - r1 ^ 2) * (2 * r2)) / (2 * d * r2) ^ 2)) -
      0.5 * (1 / (2 * Real.sqrt (lensP r1 r2 d)) *
        (-(4 * d ^ 3) + 2 * (r1 ^ 2 + r2 ^ 2) * (2 * d))) =
      -(Real.sqrt (lensP r1 r2 d) / d) := by
    field_simp
    linear_combination
      (2 * Real.sqrt (lensP r1 r2 d) ^ 2 * (2 * d * r1) ^ 2 * (2 * d * r2) ^ 2) * hs2
  rw [hval] at final
  exact final

theorem lensArea_continuousOn {r1 r2 : ℝ} (h1 : 0 < r1) (h2 : 0 < r2) (hne : r1 ≠ r2) :
    ContinuousOn (lensArea r1 r2) (Set.Icc |r1 - r2| (r1 + r2)) := by
  have habs : 0 < |r1 - r2| := abs_pos.mpr (sub_ne_zero.mpr hne)
  have hnum1 : Continuous fun x : ℝ => x ^ 2 + r1 ^ 2 - r2 ^ 2 := by fun_prop
  have hnum2 : Continuous fun x : ℝ => x ^ 2 + r2 ^ 2 - r1 ^ 2 := by fun_prop
  have hdc1 : Continuous fun x : ℝ => 2 * x * r1 := by fun_prop
  have hdc2 : Continuous fun x : ℝ => 2 * x * r2 := by fun_prop
  have hc1 : ContinuousOn (fun x : ℝ => (x ^ 2 + r1 ^ 2 - r2 ^ 2) / (2 * x * r1))
      (Set.Icc |r1 - r2| (r1 + r2)) := by
    apply ContinuousOn.div hnum1.continuousOn hdc1.continuousOn
    intro x hx
    have hx0 : 0 < x := lt_of_lt_of_le habs hx.1
    positivity
  have hc2 : ContinuousOn (fun x : ℝ => (x ^ 2 + r2 ^ 2 - r1 ^ 2) / (2 * x * r2))
      (Set.Icc |r1 - r2| (r1 + r2)) := by
    apply ContinuousOn.div hnum2.continuousOn hdc2.continuousOn
    intro x hx
    have hx0 : 0 < x := lt_of_lt_of_le habs hx.1
    positivity
  have hcP : Continuous fun x : ℝ => lensP r1 r2 x := by
    simp only [lensP]
    fun_prop
  have hc3 : ContinuousOn (fun x : ℝ => Real.sqrt (lensP r1 r2 x))
      (Set.Icc |r1 - r2| (r1 + r2)) :=
    (Real.continuous_sqrt.comp hcP).continuousOn
  have hmain : ContinuousOn (fun x : ℝ =>
      r1 ^ 2 * Real.arccos ((x ^ 2 + r1 ^ 2 - r2 ^ 2) / (2 * x * r1)) +
        r2 ^ 2 * Real.arccos ((x ^ 2 + r2 ^ 2 - r1 ^ 2) / (2 * x * r2)) -
        0.5 * Real.sqrt (lensP r1 r2 x)) (Set.Icc |r1 - r2| (r1 + r2)) :=
    ((continuousOn_const.mul (Real.continuous_arccos.comp_continuousOn hc1)).add
      (continuousOn_const.mul (Real.continuous_arccos.comp_continuousOn hc2))).sub
      (continuousOn_const.mul hc3)
  refine ContinuousOn.congr hmain ?_
  intro x hx
  rw [lensArea]

theorem lensArea_strictAntiOn {r1 r2 : ℝ} (h1 : 0 < r1) (h2 : 0 < r2) (hne : r1 ≠ r2) :
    StrictAntiOn (lensArea r1 r2) (Set.Icc |r1 - r2| (r1 + r2)) := by
  refine strictAntiOn_of_deriv_neg (convex_Icc _ _) (lensArea_continuousOn h1 h2 hne) ?_
  intro x hx
  rw [interior_Icc] at hx
  have hD := lensArea_hasDerivAt h1 h2 hx.1 hx.2
  rw [hD.deriv]
  have hPx := lensP_pos h1 h2 hx.1 hx.2
  have hx0 : 0 < x := lens_d_pos hx.1
  have : 0 < Real.sqrt (lensP r1 r2 x) / x := div_pos (Real.sqrt_pos.mpr hPx) hx0
  linarith

theorem lensArea_le_min {r1 r2 d : ℝ} (h1 : 0 < r1) (h2 : 0 < r2)
    (hlo : |r1 - r2| < d) (hhi : d < r1 + r2) :
    lensArea r1 r2 d ≤ Real.pi * min r1 r2 ^ 2 := by
  rcases eq_or_ne r1 r2 with heq | hne
  · subst heq
    have hd : 0 < d := lens_d_pos hlo
    rw [lensArea, min_self]
    have hargzero : ((d ^ 2 + r1 ^ 2 - r1 ^ 2) / (2 * d * r1)) = d ^ 2 / (2 * d * r1) := by
      ring_nf
    have harg : (0 : ℝ) ≤ (d ^ 2 + r1 ^ 2 - r1 ^ 2) / (2 * d * r1) := by
      rw [hargzero]
      positivity
    have hA1 : Real.arccos ((d ^ 2 + r1 ^ 2 - r1 ^ 2) / (2 * d * r1)) ≤ Real.pi / 2 :=
      Real.arccos_le_pi_div_two.mpr harg
    have hs : 0 ≤ Real.sqrt (lensP r1 r1 d) := Real.sqrt_nonneg _
    have hmul := mul_le_mul_of_nonneg_left hA1 (sq_nonneg r1)
    nlinarith
  · have hanti := lensArea_strictAntiOn h1 h2 hne
    have hmem1 : |r1 - r2| ∈ Set.Icc |r1 - r2| (r1 + r2) := by
      refine ⟨le_refl _, ?_⟩
      rw [abs_le]
      constructor <;> linarith
    have hmemd : d ∈ Set.Icc |r1 - r2| (r1 + r2) := ⟨hlo.le, hhi.le⟩
    have hlt := hanti hmem1 hmemd hlo
    rw [lensArea_at_diff r1 r2 h1 h2] at hlt
    exact hlt.le

theorem circleOverlapArea_le_min (r1 r2 d : ℝ) (hr1 : 0 ≤ r1) (hr2 : 0 ≤ r2) :
    circleOverlapArea r1 r2 d ≤ Real.pi * min r1 r2 ^ 2 := by
  rw [circleOverlapArea]
  split_ifs with ha hb
  · positivity
  · exact le_refl _
  · push_neg at ha hb
    obtain ⟨p1, p2⟩ := lens_branch_radii_pos hr1 hr2 hb ha
    exact lensArea_le_min p1 p2 hb ha

theorem circleOverlapArea_le_left (r1 r2 d : ℝ) (hr1 : 0 ≤ r1) (hr2 : 0 ≤ r2) :
    circleOverlapArea r1 r2 d ≤ Real.pi * r1 ^ 2 := by
  refine le_trans (circleOverlapArea_le_min r1 r2 d hr1 hr2) ?_
  have hmin : min r1 r2 ≤ r1 := min_le_left _ _
  have hmin0 : 0 ≤ min r1 r2 := le_min hr1 hr2
  have hsq : min r1 r2 ^ 2 ≤ r1 ^ 2 := by nlinarith
  nlinarith [Real.pi_pos]

/-! The limb-darkened grid flux. -/

theorem gridTotalWeight_nonneg (N : ℕ) (R : ℝ) : 0 ≤ gridTotalWeight N R := by
  rw [gridTotalWeight]
  refine Finset.sum_nonneg fun i _ => Finset.sum_nonneg fun j _ => ?_
  split_ifs
  · exact limbFactor_nonneg _
  · exact le_refl 0

theorem gridVisibleWeight_nonneg (mx my : ℝ) (N : ℕ) (R moonR : ℝ) :
    0 ≤ gridVisibleWeight mx my N R moonR := by
  rw [gridVisibleWeight]
  refine Finset.sum_nonneg fun i _ => Finset.sum_nonneg fun j _ => ?_
  split_ifs
  · exact limbFactor_nonneg _
  · exact le_refl 0

theorem gridVisibleWeight_le_total (mx my : ℝ) (N : ℕ) (R moonR : ℝ) :
    gridVisibleWeight mx my N R moonR ≤ gridTotalWeight N R := by
  rw [gridVisibleWeight, gridTotalWeight]
  refine Finset.sum_le_sum fun i _ => Finset.sum_le_sum fun j _ => ?_
  split_ifs with hA hB
  · exact le_refl _
  · exact absurd hA.1 hB
  · exact limbFactor_nonneg _
  · exact le_refl 0

theorem limbDarkenedFluxFraction_eq (mx my R moonR : ℝ) (N : ℕ) :
    limbDarkenedFluxFraction mx my R moonR N =
      if 0 < gridTotalWeight N R then
        gridVisibleWeight mx my N R moonR / gridTotalWeight N R
      else 1 := by
  simp only [limbDarkenedFluxFraction, gridTotalWeight, gridVisibleWeight]
  norm_num

theorem limbDarkenedFluxFraction_mem (mx my R moonR : ℝ) (N : ℕ) :
    limbDarkenedFluxFraction mx my R moonR N ∈ Set.Icc (0 : ℝ) 1 := by
  rw [limbDarkenedFluxFraction_eq]
  split_ifs with h
  · refine Set.mem_Icc.mpr ⟨div_nonneg (gridVisibleWeight_nonneg mx my N R moonR) h.le, ?_⟩
    rw [div_le_one h]
    exact gridVisibleWeight_le_total mx my N R moonR
  · exact Set.mem_Icc.mpr ⟨by norm_num, le_refl 1⟩

/-- C2: `limbDarkenedFluxFraction` integrates limb-darkened brightness over an
N-by-N grid of cell centers over `[-R, R]²`; a point contributes to `total`
iff it lies in the Sun's disk, to `visible` iff additionally outside the
occluder, and the result is `visible/total`, or exactly 1.0 when `total = 0`. -/
theorem C2_limbDarkenedFluxFraction (mx my R moonR : ℝ) (N : ℕ)
    (hN : 1 ≤ N) (hR : 0 < R) (hmoon : 0 ≤ moonR) :
    GridFluxProp mx my R moonR N := by
  unfold GridFluxProp
  constructor
  · intro h
    rw [limbDarkenedFluxFraction_eq, if_neg]
    rw [h]
    exact lt_irrefl 0
  · intro h
    have hpos : 0 < gridTotalWeight N R :=
      lt_of_le_of_ne (gridTotalWeight_nonneg N R) (Ne.symm h)
    rw [limbDarkenedFluxFraction_eq, if_pos hpos]

/-- C2 (witness): the theorem applied at mx = my = 0, R = 1, moonR = 0, N = 1. -/
theorem C2_witness :
    1 ≤ 1 ∧ (0 : ℝ) < 1 ∧ (0 : ℝ) ≤ 0 ∧ GridFluxProp 0 0 1 0 1 :=
  ⟨le_refl 1, by norm_num, le_refl 0,
    C2_limbDarkenedFluxFraction 0 0 1 0 1 (le_refl 1) (by norm_num) (le_refl 0)⟩

/-! Solar and lunar evaluation steps. -/

theorem renderSolarFlux_limb_false (scale : ℝ) (st : SimState) (progress : ℝ)
    (hl : st.limbDarkening = false) :
    renderSolarFlux scale st progress =
      1 - circleOverlapArea (sunAng * scale) (moonAngSolar st.moonDistanceScale * scale)
          (hypot (solarX scale st.moonDistanceScale progress)
            (solarY scale st.moonDistanceScale st.impact)) /
        (Real.pi * (sunAng * scale) ^ 2) := by
  simp [renderSolarFlux, hl]

theorem renderSolarFlux_limb_true (scale : ℝ) (st : SimState) (progress : ℝ)
    (hl : st.limbDarkening = true) :
    renderSolarFlux scale st progress =
      limbDarkenedFluxFraction (solarX scale st.moonDistanceScale progress)
        (solarY scale st.moonDistanceScale st.impact) (sunAng * scale)
        (moonAngSolar st.moonDistanceScale * scale) st.samples := by
  simp [renderSolarFlux, hl]

/-- C3: in lunar mode the umbra/penumbra overlaps feed
`umbraFraction = Au/(π·rM²)`, `penumbraFraction = max(0, Ap − Au)/(π·rM²)` and
`brightness = 1 − umbraFraction − penumbraFraction·(1 − 0.4)`, and each
`simulateStep` call records exactly these quantities. -/
theorem C3_lunarBrightness (rM rU rP dc : ℝ)
    (hrM : 0 < rM) (hrU : 0 ≤ rU) (hrP : 0 ≤ rP) (hdc : 0 ≤ dc) :
    LunarFormulaProp rM rU rP dc := by
  unfold LunarFormulaProp
  refine ⟨rfl, rfl, rfl, ?_⟩
  intro scale st data hmode
  refine ⟨?_, ?_, ?_⟩ <;> simp [simulateStep, hmode]

/-- C3 (witness): the theorem applied at rM = 1, rU = rP = dc = 0. -/
theorem C3_witness :
    (0 : ℝ) < 1 ∧ (0 : ℝ) ≤ 0 ∧ (0 : ℝ) ≤ 0 ∧ (0 : ℝ) ≤ 0 ∧
      LunarFormulaProp 1 0 0 0 :=
  ⟨by norm_num, le_refl 0, le_refl 0, le_refl 0,
    C3_lunarBrightness 1 0 0 0 (by norm_num) (le_refl 0) (le_refl 0) (le_refl 0)⟩

/-- C4: in solar mode with limb darkening disabled, the recorded flux is
`1 − circleOverlapArea(r_sun, r_moon, d)/(π·r_sun²)`; consequently the flux is
1 at separation at least the sum of radii and 0 at zero separation with the
occluder at least as large as the Sun; solar-mode samples record umbra and
penumbra fractions exactly 0. -/
theorem C4_solarFlatFlux (scale : ℝ) (st : SimState) (data : SimData) (progress : ℝ)
    (hlimb : st.limbDarkening = false) (hmode : st.mode = Mode.solar) :
    SolarFlatProp scale st data progress := by
  unfold SolarFlatProp
  refine ⟨renderSolarFlux_limb_false scale st progress hlimb, ?_, ?_, ?_, ?_, ?_⟩
  · simp [simulateStep, hmode]
  · simp [simulateStep, hmode]
  · simp [simulateStep, hmode]
  · intro r1 r2 dd hr1 hr2 hdd
    rw [circleOverlapArea, if_pos hdd]
    simp
  · intro r1 r2 hr1 hr2 hle
    have hc : circleOverlapArea r1 r2 0 = Real.pi * r1 ^ 2 := by
      rw [circleOverlapArea, if_neg (by push_neg; positivity), if_pos (abs_nonneg _),
        min_eq_left hle]
    rw [hc]
    have hpi : Real.pi * r1 ^ 2 ≠ 0 := by positivity
    field_simp

/-- C4 (witness): the theorem applied to a concrete flat-disk solar state. -/
theorem C4_witness :
    testStateSolar.limbDarkening = false ∧ testStateSolar.mode = Mode.solar ∧
      SolarFlatProp 1 testStateSolar emptyData 0 :=
  ⟨rfl, rfl, C4_solarFlatFlux 1 testStateSolar emptyData 0 rfl rfl⟩

/-! Degenerate configurations. -/

/-- C7 (counterexample): in the degenerate configuration with Moon distance
`PHY_d_earth_moon_km * 0 ≤ 0`, `simulateStep` does not report any error — it
advances and appends a sample to the light-curve sequence. -/
theorem C7_counterexample :
    PHY_d_earth_moon_km * degenerateLunarState.moonDistanceScale ≤ 0 ∧
    (simulateStep 1 degenerateLunarState emptyData).times = [0] ∧
    (simulateStep 1 degenerateLunarState emptyData).times.length =
      emptyData.times.length + 1 := by
  refine ⟨by norm_num [PHY_d_earth_moon_km, degenerateLunarState], ?_, ?_⟩
  · simp [simulateStep, degenerateLunarState, emptyData]
  · simp [simulateStep, degenerateLunarState, emptyData]

/-- C7 (amended): degenerate configurations are not rejected and no error is
reported to the caller: every `simulateStep` call, degenerate or not, appends
exactly one sample.  The geometry is instead clamped at the boundary: the
umbra-tip denominator is clamped to at least `1e-9` (so it is never zero or
negative) and the returned umbra radius is clamped to be nonnegative. -/
theorem C7_amended :
    (∀ (scale : ℝ) (st : SimState) (data : SimData),
      (simulateStep scale st data).times = data.times ++ [st.time] ∧
      (simulateStep scale st data).times.length = data.times.length + 1) ∧
    (∀ m : ℝ, 0 ≤ (umbraPenumbraAtMoonDistance m).1) ∧
    (∀ x : ℝ, 0 < max 1e-9 x) := by
  refine ⟨?_, ?_, ?_⟩
  · intro scale st data
    cases hm : st.mode
    · constructor <;> simp [simulateStep, hm]
    · constructor <;> simp [simulateStep, hm]
  · intro m
    simp only [umbraPenumbraAtMoonDistance]
    exact le_max_left 0 _
  · intro x
    have h : (0 : ℝ) < 1e-9 := by norm_num
    exact lt_max_of_lt_left h

/-! Sample bounds (flux and fractions in the unit interval). -/

theorem sunAng_pos : 0 < sunAng := by
  rw [sunAng, angularRadius]
  exact atan2_pos _ _ (by norm_num [PHY_R_sun_km]) (by norm_num [PHY_d_earth_sun_km])

theorem moonAngSolar_pos (s : ℝ) (hs : 0 < s) : 0 < moonAngSolar s := by
  rw [moonAngSolar, angularRadius]
  have hm : (0 : ℝ) < PHY_R_moon_km := by norm_num [PHY_R_moon_km]
  have hd : (0 : ℝ) < PHY_d_earth_moon_km := by norm_num [PHY_d_earth_moon_km]
  exact atan2_pos _ _ (mul_pos hm hs) (mul_pos hd hs)

theorem renderSolarFlux_mem (scale : ℝ) (st : SimState) (progress : ℝ)
    (hscale : 0 < scale) (hs : 0 < st.moonDistanceScale) :
    renderSolarFlux scale st progress ∈ Set.Icc (0 : ℝ) 1 := by
  cases hl : st.limbDarkening
  · rw [renderSolarFlux_limb_false scale st progress hl]
    have hr1 : 0 < sunAng * scale := mul_pos sunAng_pos hscale
    have hr2 : 0 < moonAngSolar st.moonDistanceScale * scale :=
      mul_pos (moonAngSolar_pos _ hs) hscale
    have hA0 := circleOverlapArea_nonneg (sunAng * scale)
      (moonAngSolar st.moonDistanceScale * scale)
      (hypot (solarX scale st.moonDistanceScale progress)
        (solarY scale st.moonDistanceScale st.impact)) hr1.le hr2.le
    have hA1 := circleOverlapArea_le_left (sunAng * scale)
      (moonAngSolar st.moonDistanceScale * scale)
      (hypot (solarX scale st.moonDistanceScale progress)
        (solarY scale st.moonDistanceScale st.impact)) hr1.le hr2.le
    have hden : (0 : ℝ) < Real.pi * (sunAng * scale) ^ 2 := by positivity
    refine Set.mem_Icc.mpr ⟨?_, ?_⟩
    · have hle : circleOverlapArea (sunAng * scale)
          (moonAngSolar st.moonDistanceScale * scale)
          (hypot (solarX scale st.moonDistanceScale progress)
            (solarY scale st.moonDistanceScale st.impact)) /
            (Real.pi * (sunAng * scale) ^ 2) ≤ 1 := (div_le_one hden).mpr hA1
      linarith
    · have hge : 0 ≤ circleOverlapArea (sunAng * scale)
          (moonAngSolar st.moonDistanceScale * scale)
          (hypot (solarX scale st.moonDistanceScale progress)
            (solarY scale st.moonDistanceScale st.impact)) /
            (Real.pi * (sunAng * scale) ^ 2) := div_nonneg hA0 hden.le
      linarith
  · rw [renderSolarFlux_limb_true scale st progress hl]
    exact limbDarkenedFluxFraction_mem _ _ _ _ _

theorem lunarBrightnessModel_bounds (rM rU rP dc : ℝ) (hrM : 0 < rM) (hrU : 0 ≤ rU)
    (hrP : 0 ≤ rP) (hdc : 0 ≤ dc) :
    (lunarBrightnessModel rM rU rP dc).brightness ∈ Set.Icc (0 : ℝ) 1 ∧
    (lunarBrightnessModel rM rU rP dc).umbra_frac ∈ Set.Icc (0 : ℝ) 1 ∧
    (lunarBrightnessModel rM rU rP dc).pen_frac ∈ Set.Icc (0 : ℝ) 1 := by
  have hS : (0 : ℝ) < Real.pi * rM ^ 2 := by positivity
  have hAu0 := circleOverlapArea_nonneg rM rU dc hrM.le hrU
  have hAp0 := circleOverlapArea_nonneg rM rP dc hrM.le hrP
  have hAu1 := circleOverlapArea_le_left rM rU dc hrM.le hrU
  have hAp1 := circleOverlapArea_le_left rM rP dc hrM.le hrP
  have hmax0 : 0 ≤ max 0 (circleOverlapArea rM rP dc - circleOverlapArea rM rU dc) :=
    le_max_left _ _
  have hmaxle : circleOverlapArea rM rU dc +
      max 0 (circleOverlapArea rM rP dc - circleOverlapArea rM rU dc) ≤
      Real.pi * rM ^ 2 := by
    rcases le_total (circleOverlapArea rM rP dc - circleOverlapArea rM rU dc) 0 with h | h
    · rw [max_eq_left h]
      linarith
    · rw [max_eq_right h]
      linarith
  have huf0 : 0 ≤ circleOverlapArea rM rU dc / (Real.pi * rM ^ 2) :=
    div_nonneg hAu0 hS.le
  have huf1 : circleOverlapArea rM rU dc / (Real.pi * rM ^ 2) ≤ 1 :=
    (div_le_one hS).mpr hAu1
  have hpf0 : 0 ≤ max 0 (circleOverlapArea rM rP dc - circleOverlapArea rM rU dc) /
      (Real.pi * rM ^ 2) := div_nonneg hmax0 hS.le
  have hpf1 : max 0 (circleOverlapArea rM rP dc - circleOverlapArea rM rU dc) /
      (Real.pi * rM ^ 2) ≤ 1 := by
    rw [div_le_one hS]
    linarith
  have hsum : circleOverlapArea rM rU dc / (Real.pi * rM ^ 2) +
      max 0 (circleOverlapArea rM rP dc - circleOverlapArea rM rU dc) /
        (Real.pi * rM ^ 2) ≤ 1 := by
    rw [div_add_div_same, div_le_one hS]
    exact hmaxle
  simp only [lunarBrightnessModel]
  refine ⟨Set.mem_Icc.mpr ⟨?_, ?_⟩, Set.mem_Icc.mpr ⟨huf0, huf1⟩,
    Set.mem_Icc.mpr ⟨hpf0, hpf1⟩⟩
  · nlinarith
  · nlinarith

theorem umbraPenumbra_snd_nonneg (m : ℝ) (hm : 0 ≤ m) :
    0 ≤ (umbraPenumbraAtMoonDistance m).2 := by
  simp only [umbraPenumbraAtMoonDistance]
  have htan : Real.tan (atan2 PHY_R_sun_km PHY_d_earth_sun_km) =
      PHY_R_sun_km / PHY_d_earth_sun_km := by
    rw [atan2_of_pos _ _ (by norm_num [PHY_d_earth_sun_km]), Real.tan_arctan]
  rw [htan]
  have hq : (0 : ℝ) ≤ PHY_R_sun_km / PHY_d_earth_sun_km := by
    norm_num [PHY_R_sun_km, PHY_d_earth_sun_km]
  have h1 : 0 ≤ PHY_R_sun_km / PHY_d_earth_sun_km * m * 1.05 := by
    have := mul_nonneg (mul_nonneg hq hm) (by norm_num : (0 : ℝ) ≤ 1.05)
    linarith
  have h2 : (0 : ℝ) ≤ max 0 (PHY_R_earth_km *
      (1 - m / (PHY_R_earth_km * PHY_d_earth_sun_km /
        max 1e-9 (PHY_R_sun_km - PHY_R_earth_km)))) := le_max_left 0 _
  linarith

theorem renderLunarResult_bounds (scale : ℝ) (st : SimState) (progress : ℝ)
    (hscale : 0 < scale) (hs : 0 < st.moonDistanceScale) :
    (renderLunarResult scale st progress).brightness ∈ Set.Icc (0 : ℝ) 1 ∧
    (renderLunarResult scale st progress).umbra_frac ∈ Set.Icc (0 : ℝ) 1 ∧
    (renderLunarResult scale st progress).pen_frac ∈ Set.Icc (0 : ℝ) 1 := by
  have hMoonDist : 0 ≤ PHY_d_earth_moon_km * st.moonDistanceScale := by
    have : (0 : ℝ) < PHY_d_earth_moon_km := by norm_num [PHY_d_earth_moon_km]
    positivity
  have hrM : 0 < angularRadius (PHY_R_moon_km * st.moonDistanceScale)
      (PHY_d_earth_moon_km * st.moonDistanceScale) * scale :=
    mul_pos (moonAngSolar_pos st.moonDistanceScale hs) hscale
  have hk : 0 ≤ angularRadius (PHY_R_moon_km * st.moonDistanceScale)
      (PHY_d_earth_moon_km * st.moonDistanceScale) * scale / PHY_R_moon_km := by
    have : (0 : ℝ) < PHY_R_moon_km := by norm_num [PHY_R_moon_km]
    positivity
  have hu0 : 0 ≤ (umbraPenumbraAtMoonDistance
      (PHY_d_earth_moon_km * st.moonDistanceScale)).1 := le_max_left 0 _
  have hp0 := umbraPenumbra_snd_nonneg _ hMoonDist
  simp only [renderLunarResult]
  exact lunarBrightnessModel_bounds _ _ _ _ hrM (mul_nonneg hu0 hk) (mul_nonneg hp0 hk)
    (hypot_nonneg _ _)

/-- C8: every sample appended by `simulateStep` — in either mode, for positive
canvas scale and `moonDistanceScale`, with `samples ≥ 1` — has flux,
umbraFraction and penumbraFraction all in [0, 1]. -/
theorem C8_simulateStep_sample_bounds (scale : ℝ) (st : SimState) (data : SimData)
    (hscale : 0 < scale) (hmds : 0 < st.moonDistanceScale) (hsamp : 1 ≤ st.samples) :
    SampleInRange scale st data := by
  unfold SampleInRange
  cases hm : st.mode
  · refine ⟨renderSolarFlux scale st (stepProgress st), 0, 0, ?_, ?_, ?_, ?_⟩
    · simp [simulateStep, hm]
    · exact renderSolarFlux_mem scale st (stepProgress st) hscale hmds
    · exact Set.mem_Icc.mpr ⟨le_refl 0, by norm_num⟩
    · exact Set.mem_Icc.mpr ⟨le_refl 0, by norm_num⟩
  · refine ⟨(renderLunarResult scale st (stepProgress st)).brightness,
      (renderLunarResult scale st (stepProgress st)).umbra_frac,
      (renderLunarResult scale st (stepProgress st)).pen_frac, ?_, ?_, ?_, ?_⟩
    · simp [simulateStep, hm]
    · exact (renderLunarResult_bounds scale st (stepProgress st) hscale hmds).1
    · exact (renderLunarResult_bounds scale st (stepProgress st) hscale hmds).2.1
    · exact (renderLunarResult_bounds scale st (stepProgress st) hscale hmds).2.2

/-- C8 (witness): the theorem applied to a concrete solar state. -/
theorem C8_witness :
    (0 : ℝ) < 1 ∧ 0 < testStateSolar.moonDistanceScale ∧ 1 ≤ testStateSolar.samples ∧
      SampleInRange 1 testStateSolar emptyData :=
  ⟨by norm_num, by norm_num [testStateSolar], by norm_num [testStateSolar],
    C8_simulateStep_sample_bounds 1 testStateSolar emptyData (by norm_num)
      (by norm_num [testStateSolar]) (by norm_num [testStateSolar])⟩

/-! The light-curve time sequence under run/step transitions. -/

theorem simulateStep_times_eq (scale : ℝ) (st : SimState) (data : SimData) :
    (simulateStep scale st data).times = data.times ++ [st.time] := by
  cases hm : st.mode <;> simp [simulateStep, hm]

theorem chain'_append_singleton {l : List ℝ} {t : ℝ} (hchain : List.Chain' (· < ·) l)
    (hlt : ∀ x ∈ l, x < t) : List.Chain' (· < ·) (l ++ [t]) := by
  rw [List.chain'_append]
  refine ⟨hchain, List.chain'_singleton t, ?_⟩
  intro x hx y hy
  have hxl : x ∈ l := by
    obtain ⟨h, rfl⟩ := List.mem_getLast?_eq_getLast hx
    exact List.getLast_mem h
  have hyt : t = y := by simpa using hy
  rw [← hyt]
  exact hlt x hxl

/-- C9 (counterexample): run to completion in one tick (speed 360, dt 0.5,
totalTime 180), press play again — the code resets `time` to 0 without
clearing `DATA` — and tick once more: the recorded time sequence is
`[180, 180]`, which is not strictly increasing, with no reset in between. -/
theorem C9_counterexample :
    (runEvents 1 (fastState, emptyData)
        [SimEvent.play, SimEvent.tick, SimEvent.play, SimEvent.tick]).2.times =
      [180, 180] ∧
    ¬ List.Chain' (· < ·) ((runEvents 1 (fastState, emptyData)
        [SimEvent.play, SimEvent.tick, SimEvent.play, SimEvent.tick]).2.times) := by
  have h : (runEvents 1 (fastState, emptyData)
      [SimEvent.play, SimEvent.tick, SimEvent.play, SimEvent.tick]).2.times =
      [180, 180] := by
    norm_num [runEvents, List.foldl, applyEvent, simulateStep_times_eq, fastState, emptyData,
      simulateStep]
  refine ⟨h, ?_⟩
  rw [h]
  simp only [List.chain'_cons, List.chain'_singleton, and_true]
  norm_num

theorem runEvents_mono_aux (scale : ℝ) (es : List SimEvent) :
    ∀ s : SimState × SimData, 0 < s.1.dt * s.1.speed →
      List.Chain' (· < ·) s.2.times → (∀ x ∈ s.2.times, x ≤ s.1.time) →
      SafeTrace scale s es →
      List.Chain' (· < ·) (runEvents scale s es).2.times := by
  induction es with
  | nil =>
    intro s hdt hchain hle hsafe
    simpa [runEvents] using hchain
  | cons e es ih =>
    intro s hdt hchain hle hsafe
    simp only [SafeTrace] at hsafe
    simp only [runEvents, List.foldl_cons]
    have hstep : ∀ s' : SimState × SimData, s'.1.dt = s.1.dt → s'.1.speed = s.1.speed →
        List.Chain' (· < ·) s'.2.times → (∀ x ∈ s'.2.times, x ≤ s'.1.time) →
        SafeTrace scale s' es →
        List.Chain' (· < ·) (List.foldl (applyEvent scale) s' es).2.times := by
      intro s' h1 h2 h3 h4 h5
      have := ih s' (by rw [h1, h2]; exact hdt) h3 h4 h5
      simpa [runEvents] using this
    cases e with
    | play =>
      have hlt : s.1.time < s.1.totalTime := hsafe.1 rfl
      refine hstep _ ?_ ?_ ?_ ?_ hsafe.2
      · simp [applyEvent, not_le.mpr hlt]
      · simp [applyEvent, not_le.mpr hlt]
      · simpa [applyEvent, not_le.mpr hlt] using hchain
      · simpa [applyEvent, not_le.mpr hlt] using hle
    | stepBtn =>
      have htlt : ∀ x ∈ s.2.times, x < s.1.time + s.1.dt * s.1.speed := by
        intro x hx
        have := hle x hx
        linarith
      refine hstep _ ?_ ?_ ?_ ?_ hsafe.2
      · simp [applyEvent]
      · simp [applyEvent]
      · simp only [applyEvent, simulateStep_times_eq]
        exact chain'_append_singleton hchain htlt
      · simp only [applyEvent, simulateStep_times_eq]
        intro x hx
        rcases List.mem_append.mp hx with hx | hx
        · exact le_of_lt (htlt x hx)
        · rw [List.mem_singleton.mp hx]
    | tick =>
      by_cases hrun : s.1.running = true
      · have htlt : ∀ x ∈ s.2.times, x < s.1.time + s.1.dt * s.1.speed := by
          intro x hx
          have := hle x hx
          linarith
        by_cases hfin : s.1.time + s.1.dt * s.1.speed ≥ s.1.totalTime
        · refine hstep _ ?_ ?_ ?_ ?_ ?_
          · simp [applyEvent, hrun, hfin]
          · simp [applyEvent, hrun, hfin]
          · simp only [applyEvent, hrun, if_true, if_pos hfin, simulateStep_times_eq]
            exact chain'_append_singleton hchain htlt
          · simp only [applyEvent, hrun, if_true, if_pos hfin, simulateStep_times_eq]
            intro x hx
            rcases List.mem_append.mp hx with hx | hx
            · exact le_of_lt (htlt x hx)
            · rw [List.mem_singleton.mp hx]
          · exact hsafe.2
        · refine hstep _ ?_ ?_ ?_ ?_ ?_
          · simp [applyEvent, hrun, hfin]
          · simp [applyEvent, hrun, hfin]
          · simp only [applyEvent, hrun, if_true, if_neg hfin, simulateStep_times_eq]
            exact chain'_append_singleton hchain htlt
          · simp only [applyEvent, hrun, if_true, if_neg hfin, simulateStep_times_eq]
            intro x hx
            rcases List.mem_append.mp hx with hx | hx
            · exact le_of_lt (htlt x hx)
            · rw [List.mem_singleton.mp hx]
          · exact hsafe.2
      · have hne : s.1.running = false := by
          cases h : s.1.running
          · rfl
          · exact absurd h hrun
        refine hstep _ ?_ ?_ ?_ ?_ ?_
        · simp [applyEvent, hne]
        · simp [applyEvent, hne]
        · simpa [applyEvent, hne] using hchain
        · simpa [applyEvent, hne] using hle
        · exact hsafe.2

/-- C9 (amended): the recorded time sequence is strictly increasing after any
sequence of run/step transitions, provided the per-step increment
`dt × speed` is positive and play is never pressed after the simulation has
finished (pressing play when `time ≥ totalTime` resets `time` to 0 without
clearing the data, which breaks monotonicity, as the counterexample shows). -/
theorem C9_times_strictly_increasing (scale : ℝ) (s0 : SimState × SimData)
    (es : List SimEvent) (hdt : 0 < s0.1.dt * s0.1.speed) (hempty : s0.2.times = [])
    (hsafe : SafeTrace scale s0 es) :
    List.Chain' (· < ·) (runEvents scale s0 es).2.times := by
  refine runEvents_mono_aux scale es s0 hdt ?_ ?_ hsafe
  · rw [hempty]
    exact List.chain'_nil
  · rw [hempty]
    intro x hx
    exact absurd hx (List.not_mem_nil x)

/-- C9 (witness): the amended theorem applied to one step-button press from a
reset state. -/
theorem C9_witness :
    0 < fastState.dt * fastState.speed ∧ emptyData.times = [] ∧
      SafeTrace 1 (fastState, emptyData) [SimEvent.stepBtn] ∧
      List.Chain' (· < ·)
        (runEvents 1 (fastState, emptyData) [SimEvent.stepBtn]).2.times := by
  have hsafe : SafeTrace 1 (fastState, emptyData) [SimEvent.stepBtn] := by
    simp only [SafeTrace]
    exact ⟨fun h => SimEvent.noConfusion h, trivial⟩
  exact ⟨by norm_num [fastState], rfl, hsafe,
    C9_times_strictly_increasing 1 (fastState, emptyData) [SimEvent.stepBtn]
      (by norm_num [fastState]) rfl hsafe⟩

end

end Eclipse
